import Mathlib

/-!
Verification of the schematic symbol layer of kicad-skip
(`src/skip/eeschema/schematic/symbol.py`).

The Python source is shallowly embedded: coordinates are rationals,
angles are integers taken mod 360 (Python `%` on ints agrees with
`Int.emod`), Python dicts become association lists with insertion
order and overwrite-on-duplicate, and exceptions become `Option` /
`Except` results.  Functions that exist in the repository but outside
the provided source file (`AtValue.rotate90degrees`,
`NamedElementCollection.elementRename`) are modelled from the spec and
say so in their doc comments.
-/

namespace KicadSkip

/-! ## Rounding

Python's `round(x, 4)` rounds half to even.  On rationals: -/

/-- Floor of a rational, written out on the numerator and denominator
so that concrete instances evaluate inside the kernel.  Agrees with
`Int.floor` (`ratFloor_eq_floor`). -/
def ratFloor (q : ℚ) : ℤ := Int.ediv q.num (q.den : ℤ)

/-- Round a rational to the nearest integer, ties to even
(the behaviour of Python's builtin `round`). -/
def pyRound (q : ℚ) : ℤ :=
  let f : ℤ := ratFloor q
  let r : ℚ := q - (f : ℚ)
  if r < 1 / 2 then f
  else if 1 / 2 < r then f + 1
  else if f % 2 = 0 then f else f + 1

/-- `round(v, 4)` from `SymbolPin.location`. -/
def round4 (q : ℚ) : ℚ := (pyRound (q * 10000) : ℚ) / 10000

/-! ## Geometry: `SymbolPin.location` -/

/-- An `(x, y, rotation)` triple, the payload of an `AtValue`. -/
structure AtVal where
  x : ℚ
  y : ℚ
  rot : ℤ
deriving DecidableEq, Repr

/-- Modelled from the spec: `AtValue.rotate90degrees` is not in the
provided source; the spec defines one 90-degree rotation step as
mapping `(x, y, rot)` to `(-y, x, (rot + 90) mod 360)`. -/
def rotate90degrees (a : AtVal) : AtVal :=
  ⟨-a.y, a.x, (a.rot + 90) % 360⟩

/-- Mirror state of a placed symbol.  `Mirror.none` covers both an
absent `mirror` attribute and a mirror value other than `'x'`/`'y'`
(the Python code then takes no branch). -/
inductive Mirror
  | none
  | x
  | y
deriving DecidableEq, Repr

/-- The mirror stage of `SymbolPin.location` (symbol.py lines 527-541):
mirror `'y'` negates the relative x and, when the relative rotation is
0 mod 180, adds 180 degrees (mod 360); mirror `'x'` negates the
relative y and, when the relative rotation is 0 mod 90, adds 180
degrees (mod 360). -/
def applyMirror (m : Mirror) (a : AtVal) : AtVal :=
  match m with
  | Mirror.none => a
  | Mirror.y =>
      ⟨-a.x, a.y, if a.rot % 180 = 0 then (a.rot + 180) % 360 else a.rot⟩
  | Mirror.x =>
      ⟨a.x, -a.y, if a.rot % 90 = 0 then (a.rot + 180) % 360 else a.rot⟩

/-- The `while manip_at.rotation != par_at.rotation` loop of
`SymbolPin.location` (lines 544-550), fuel-bounded.  `manipRot` plays
the role of `manip_at.rotation` (set to 0 before the loop); `relAt` is
rotated alongside it.  Returns the rotated `rel_at` together with the
number of 90-degree steps taken, or `none` when the Python loop would
not have terminated within the given fuel. -/
def locLoop (fuel : Nat) (manipRot : ℤ) (relAt : AtVal) (parRot : ℤ) :
    Option (AtVal × Nat) :=
  if manipRot = parRot then some (relAt, 0)
  else
    match fuel with
    | 0 => none
    | n + 1 =>
        (locLoop n ((manipRot + 90) % 360) (rotate90degrees relAt) parRot).map
          (fun p => (p.1, p.2 + 1))

/-- `SymbolPin.location` (symbol.py lines 523-555): apply the mirror
stage to the library pin's relative placement, rotate it in 90-degree
steps until the accumulated rotation matches the parent symbol's
rotation, then return
`(round4 (parent.x + rel.x), round4 (parent.y - rel.y), rel.rot)`
together with the step count.  Fuel 4 covers every terminating run of
the Python loop (the accumulated rotation cycles through a 4-element
orbit, so either it hits the target within 3 steps or never). -/
def location (parAt : AtVal) (m : Mirror) (libAt : AtVal) :
    Option (AtVal × Nat) :=
  let relAt := applyMirror m libAt
  (locLoop 4 0 relAt parAt.rot).map
    (fun p => (⟨round4 (parAt.x + p.1.x), round4 (parAt.y - p.1.y), p.1.rot⟩, p.2))

/-! ## `SymbolCollection` (symbol.py lines 18-108) -/

/-- The data of one symbol element that the collection keying logic
looks at: its `property.Reference.value` and its `unit.value`. -/
structure SymEl where
  ref : String
  unit : Nat
deriving DecidableEq, Repr

/-- `SymbolCollection.UnitToName` (symbol.py line 41). -/
def UnitToName : List String :=
  ["N/A", "A", "B", "C", "D", "E", "F", "G", "H", "I", "J", "K"]

/-- The key function passed to the `NamedElementCollection` constructor
(symbol.py line 44): the Reference for unit-1 elements, otherwise
`Reference ++ "_" ++ UnitToName[unit]`.  `none` models the Python
`IndexError` for a unit beyond the `UnitToName` table. -/
def keyFor (el : SymEl) : Option String :=
  if el.unit = 1 then some el.ref
  else (UnitToName.get? el.unit).map (fun letterName => el.ref ++ "_" ++ letterName)

/-- Modelled from the spec: `NamedElementCollection.elementRename` is
not in the provided source.  Per the spec it moves the index entry
from the old key to the new key, preserves element order, and fails if
the old key is absent or the new key is already present.  The
collection is modelled as its ordered `(key, element)` list. -/
def elementRename (oldKey newKey : String) (entries : List (String × SymEl)) :
    Option (List (String × SymEl)) :=
  if entries.all (fun p => p.1 ≠ oldKey) then none
  else if entries.any (fun p => p.1 = newKey) then none
  else some (entries.map (fun p => if p.1 = oldKey then (newKey, p.2) else p))

/-- The keyed entries produced when the `NamedElementCollection`
constructor applies the key function to each element of the batch, in
order.  `none` models a Python `IndexError` from `keyFor`. -/
def initialEntries (els : List SymEl) : Option (List (String × SymEl)) :=
  els.mapM (fun el => (keyFor el).map (fun k => (k, el)))

/-- `_multi_unit_elements` (symbol.py lines 46-49): the references of
elements with `unit > 1`, in first-occurrence order (Python dict key
order). -/
def multiUnitRefs (els : List SymEl) : List String :=
  els.foldl
    (fun acc el => if el.unit > 1 ∧ el.ref ∉ acc then acc ++ [el.ref] else acc) []

/-- A constructed `SymbolCollection`: its ordered keyed entries plus
the `_multi_unit_elements` record. -/
structure SymbolCollection where
  entries : List (String × SymEl)
  multiUnit : List String
deriving DecidableEq, Repr

/-- The suffixed key `f'{multis}_{self.UnitToName[1]}'` of symbol.py
line 52, that is `r ++ "_A"`. -/
def suffixA (r : String) : String := r ++ "_" ++ UnitToName.getD 1 ""

/-- `SymbolCollection.__init__` (symbol.py lines 42-52): key every
element, record the multi-unit references, then rename each multi-unit
reference's plain key to `suffixA` of it.  `none` models an uncaught
Python exception. -/
def symbolCollectionInit (els : List SymEl) : Option SymbolCollection := do
  let init ← initialEntries els
  let final ← (multiUnitRefs els).foldlM
    (fun es r => elementRename r (suffixA r) es) init
  return ⟨final, multiUnitRefs els⟩

/-- The net effect of the constructor's rename pass on the keyed
entries: every key that is a multi-unit reference gets the `_A`
suffix, every other entry is untouched. -/
def finalKeyedEntries (multis : List String) (entries : List (String × SymEl)) :
    List (String × SymEl) :=
  entries.map (fun p => if p.1 ∈ multis then (suffixA p.1, p.2) else p)

/-- `SymbolCollection.multiple_units_for_reference` (lines 100-101). -/
def multiple_units_for_reference (c : SymbolCollection) (reference : String) : Bool :=
  c.multiUnit.contains reference

/-- `SymbolCollection.property_changed` (symbol.py lines 104-108):
ignore any property other than `Reference`; for `Reference`, rename
the entry keyed by the old value to the new value.  `none` models the
exception `elementRename` raises when the rename fails. -/
def property_changed (c : SymbolCollection) (name toValue fromValue : String) :
    Option SymbolCollection :=
  if name ≠ "Reference" then some c
  else (elementRename fromValue toValue c.entries).map (fun e => ⟨e, c.multiUnit⟩)

/-! ## `Symbol.from_lib` (symbol.py lines 182-241) -/

/-- The fields of the synthesized symbol node that `from_lib` builds
(the `symbol_data` s-expression, lines 215-230). -/
structure SymbolInst where
  lib_id : String
  atVal : AtVal
  unit : Nat
  in_bom : Bool
  on_board : Bool
  dnp : Bool
  reference : String
  valueProp : String
deriving DecidableEq, Repr

/-- The Value property content:
`lib_id.split(':')[-1] if ':' in lib_id else lib_id` (line 227). -/
def valueFromLibId (libId : String) : String :=
  if (libId.splitOn ":").length > 1 then (libId.splitOn ":").getLastD libId
  else libId

/-- The schematic state `from_lib` touches: the library-symbol id
table (`none` when the schematic has no `lib_symbols` attribute),
whether it has a `symbol` collection attribute, and that collection's
contents. -/
structure Schematic where
  lib_symbols : Option (List String)
  hasSymbolCollection : Bool
  symbols : List SymbolInst
deriving DecidableEq, Repr

/-- The `ValueError` of symbol.py lines 209-210: it names the missing
id and lists the known library ids. -/
structure LookupFailure where
  badId : String
  knownIds : List String
deriving DecidableEq, Repr

/-- The symbol node synthesized by `from_lib` (lines 215-230). -/
def synthesizeSymbol (libId reference : String) (atX atY : ℚ) (unit : Nat)
    (inBom onBoard dnp : Bool) : SymbolInst :=
  ⟨libId, ⟨atX, atY, 0⟩, unit, inBom, onBoard, dnp, reference, valueFromLibId libId⟩

/-- Lines 236-239: append to the schematic's symbol collection only
when the schematic has a `symbol` attribute. -/
def registerSymbol (sch : Schematic) (sym : SymbolInst) : Schematic :=
  if sch.hasSymbolCollection then { sch with symbols := sch.symbols ++ [sym] }
  else sch

/-- `Symbol.from_lib` (lines 182-241): raise `LookupFailure` when the
schematic has a lib-symbol table and the id is not in it; otherwise
synthesize the symbol, register it when possible, and return it. -/
def from_lib (sch : Schematic) (libId reference : String) (atX atY : ℚ)
    (unit : Nat) (inBom onBoard dnp : Bool) :
    Except LookupFailure (SymbolInst × Schematic) :=
  match sch.lib_symbols with
  | some known =>
      if libId ∈ known then
        let sym := synthesizeSymbol libId reference atX atY unit inBom onBoard dnp
        Except.ok (sym, registerSymbol sch sym)
      else Except.error ⟨libId, known⟩
  | none =>
      let sym := synthesizeSymbol libId reference atX atY unit inBom onBoard dnp
      Except.ok (sym, registerSymbol sch sym)

/-! ## `Symbol.pin` (symbol.py lines 285-330) -/

/-- A library pin definition: number, name and part-space placement. -/
structure LibPin where
  number : String
  name : String
  atVal : AtVal
deriving DecidableEq, Repr

/-- Python dict insertion on an association list: overwrite in place
when the key exists, else append. -/
def dictInsert {α : Type} (m : List (String × α)) (k : String) (v : α) :
    List (String × α) :=
  if m.any (fun p => p.1 = k) then m.map (fun p => if p.1 = k then (k, v) else p)
  else m ++ [(k, v)]

/-- Python dict lookup on an association list. -/
def dictFind {α : Type} (m : List (String × α)) (k : String) : Option α :=
  (m.find? (fun p => p.1 = k)).map Prod.snd

/-- `lib_pins_map` (lines 316-317): library pins keyed by number. -/
def libPinsMap (libPins : List LibPin) : List (String × LibPin) :=
  libPins.foldl (fun acc p => dictInsert acc p.number p) []

/-- A `SymbolPin`: an instance pin (its number string, `sym_pin.value`)
paired with its matching library pin definition. -/
structure SymbolPin where
  pinNumber : String
  libPin : LibPin
deriving DecidableEq, Repr

/-- The pin-collection build of `Symbol.pin` (lines 319-326): for each
instance pin number in order, wrap it with the matching library pin if
one exists, else silently skip it. -/
def buildPins (instPins : List String) (libPins : List LibPin) : List SymbolPin :=
  let m := libPinsMap libPins
  instPins.foldl
    (fun acc n =>
      match dictFind m n with
      | some lp => acc ++ [⟨n, lp⟩]
      | none => acc)
    []

/-- The symbol state that `Symbol.pin` reads, plus the
`_sympins_cont_cache` field set to `None` in `Symbol.__init__`
(line 180). -/
structure SymbolState where
  unit : Nat
  lib_id : String
  instPins : List String
  libAllPins : List LibPin
  libUnitPins : List (List LibPin)
  isMultiUnit : Bool
  sympinsCache : Option (List SymbolPin)
deriving DecidableEq, Repr

/-- Lines 311-314: for a multi-unit part use
`lib_symbol.symbol[unit - 1].pin`, else `lib_symbol.pin`. -/
def effectiveLibPins (s : SymbolState) : List LibPin :=
  if s.isMultiUnit then s.libUnitPins.getD (s.unit - 1) [] else s.libAllPins

/-- Property access `Symbol.pin` (lines 285-330): return the cache if
set, else build the collection, store it in the cache and return it. -/
def pinAccess (s : SymbolState) : List SymbolPin × SymbolState :=
  match s.sympinsCache with
  | some c => (c, s)
  | none =>
      let c := buildPins s.instPins (effectiveLibPins s)
      (c, { s with sympinsCache := some c })

/-- Later mutations of the fields that the pin build reads.  None of
the corresponding Python setters touches `_sympins_cont_cache`. -/
inductive SymbolMutation
  | setUnit (u : Nat)
  | setLibId (i : String)
  | setInstPins (ps : List String)
deriving DecidableEq, Repr

/-- Apply one mutation to the symbol state. -/
def applyMutation (s : SymbolState) (mu : SymbolMutation) : SymbolState :=
  match mu with
  | SymbolMutation.setUnit u => { s with unit := u }
  | SymbolMutation.setLibId i => { s with lib_id := i }
  | SymbolMutation.setInstPins ps => { s with instPins := ps }

/-- Apply a sequence of mutations in order. -/
def applyMutations (s : SymbolState) (ms : List SymbolMutation) : SymbolState :=
  ms.foldl applyMutation s

/-! ## `Symbol.get_pin_locations` (symbol.py lines 332-360) -/

/-- One iteration of the `Symbol.get_pin_locations` loop (symbol.py
lines 352-359): compute the pin's location, store its `(x, y)` under
the pin number, and also under the pin name when the name is truthy
and not `'~'` (line 358: `if pin.name and pin.name != '~'`).  `none`
models the Python loop in `location` not terminating. -/
def gplStep (parAt : AtVal) (m : Mirror) (locs : List (String × (ℚ × ℚ)))
    (p : SymbolPin) : Option (List (String × (ℚ × ℚ))) :=
  (location parAt m p.libPin.atVal).map (fun lc =>
    let coord := (lc.1.x, lc.1.y)
    let locs1 := dictInsert locs p.libPin.number coord
    if p.libPin.name ≠ "" ∧ p.libPin.name ≠ "~" then
      dictInsert locs1 p.libPin.name coord
    else locs1)

/-- `Symbol.get_pin_locations` (symbol.py lines 332-360): fold
`gplStep` over the pin collection starting from the empty dict. -/
def get_pin_locations (parAt : AtVal) (m : Mirror) (pins : List SymbolPin) :
    Option (List (String × (ℚ × ℚ))) :=
  pins.foldlM (gplStep parAt m) []

/-- The `(x, y)` coordinate that `location` produces for a pin of a
symbol placed at `parAt` with mirror `m`, when `parAt.rot` is a right
angle (see `location_rightAngle`). -/
def locXY (parAt : AtVal) (m : Mirror) (libAt : AtVal) : ℚ × ℚ :=
  (round4 (parAt.x + (rotate90degrees^[(parAt.rot / 90).toNat] (applyMirror m libAt)).x),
   round4 (parAt.y - (rotate90degrees^[(parAt.rot / 90).toNat] (applyMirror m libAt)).y))

/-- The dictionary entries one pin contributes to
`get_pin_locations`: one keyed by its number, plus one keyed by its
name when the name is non-empty and not `'~'`. -/
def pinEntries (parAt : AtVal) (m : Mirror) (p : SymbolPin) :
    List (String × (ℚ × ℚ)) :=
  (p.libPin.number, locXY parAt m p.libPin.atVal) ::
    (if p.libPin.name ≠ "" ∧ p.libPin.name ≠ "~" then
      [(p.libPin.name, locXY parAt m p.libPin.atVal)]
    else [])

/-- All dictionary keys `get_pin_locations` produces, in insertion
order. -/
def pinKeys (pins : List SymbolPin) : List String :=
  (pins.map (fun p =>
    p.libPin.number ::
      (if p.libPin.name ≠ "" ∧ p.libPin.name ≠ "~" then [p.libPin.name] else []))).flatten

/-! ## Connectivity: `attached_symbols` (symbol.py lines 446-457 and
597-607)

Wires and symbols are abstract here: a wire is an id, and
`list_connected_symbols` (a wire method outside the provided source)
is an arbitrary function from a wire to the symbol ids its recursive
crawl finds. -/

/-- `SymbolPin.attached_symbols` (lines 597-607): concatenate, over
the wires at the pin's location, each wire's connected-symbol list.
No de-duplication and no self-exclusion is performed. -/
def pin_attached_symbols (wiresAtLoc : List ℕ)
    (listConnectedSymbols : ℕ → List ℕ) : List ℕ :=
  wiresAtLoc.foldl (fun acc w => acc ++ listConnectedSymbols w) []

/-- `Symbol.attached_symbols` (lines 446-457): over all attached
wires, collect each wire's connected symbols, skipping the symbol
itself and anything already collected. -/
def symbol_attached_symbols (selfId : ℕ) (attachedWires : List ℕ)
    (listConnectedSymbols : ℕ → List ℕ) : List ℕ :=
  attachedWires.foldl
    (fun acc w =>
      (listConnectedSymbols w).foldl
        (fun acc2 s => if s ≠ selfId ∧ s ∉ acc2 then acc2 ++ [s] else acc2)
        acc)
    []

/-! ## Basic facts about the geometry embedding -/

/-- `ratFloor` agrees with the mathematical floor. -/
theorem ratFloor_eq_floor (q : ℚ) : ratFloor q = ⌊q⌋ := by
  rw [Rat.floor_def, ratFloor]
  rfl

/-- The rotation loop, at fuel 4, for a parent rotation that is a
right angle in [0, 360): it returns the relative placement rotated
`r / 90` times, having taken `r / 90` steps. -/
theorem locLoop4_eq (a : AtVal) (r : ℤ)
    (hr : r = 0 ∨ r = 90 ∨ r = 180 ∨ r = 270) :
    locLoop 4 0 a r = some (rotate90degrees^[(r / 90).toNat] a, (r / 90).toNat) := by
  rcases hr with h | h | h | h <;> subst h <;>
    norm_num [locLoop, Function.iterate_succ_apply, Option.map_map,
      show Int.toNat 2 = 2 from rfl, show Int.toNat 3 = 3 from rfl]

/-- The mirror stage keeps the rotation inside [0, 360). -/
theorem applyMirror_rot_range (m : Mirror) (a : AtVal)
    (h0 : 0 ≤ a.rot) (h1 : a.rot < 360) :
    0 ≤ (applyMirror m a).rot ∧ (applyMirror m a).rot < 360 := by
  cases m
  case none => exact ⟨h0, h1⟩
  all_goals simp only [applyMirror]
  all_goals split_ifs <;> constructor <;> omega

/-- Rotation component after `n ≤ 3` quarter-turns, for a starting
rotation in [0, 360). -/
theorem iterate_rot90_rot (a : AtVal) (h0 : 0 ≤ a.rot) (h1 : a.rot < 360)
    (n : ℕ) (hn : n ≤ 3) :
    (rotate90degrees^[n] a).rot = (a.rot + 90 * n) % 360 := by
  interval_cases n <;>
    simp only [Function.iterate_succ_apply, Function.iterate_zero_apply,
      rotate90degrees] <;> omega

/-- Closed form of `location` when the parent rotation is a right
angle in [0, 360): the loop runs `parAt.rot / 90` times. -/
theorem location_rightAngle (parAt : AtVal) (m : Mirror) (libAt : AtVal)
    (hr : parAt.rot = 0 ∨ parAt.rot = 90 ∨ parAt.rot = 180 ∨ parAt.rot = 270) :
    location parAt m libAt =
      some (⟨round4 (parAt.x +
              (rotate90degrees^[(parAt.rot / 90).toNat] (applyMirror m libAt)).x),
             round4 (parAt.y -
              (rotate90degrees^[(parAt.rot / 90).toNat] (applyMirror m libAt)).y),
             (rotate90degrees^[(parAt.rot / 90).toNat] (applyMirror m libAt)).rot⟩,
            (parAt.rot / 90).toNat) := by
  simp only [location, locLoop4_eq _ _ hr, Option.map_some']

/-! ## Claim theorems -/

/-- Claim C1 counterexample: at symbol rotation r = 0 with mirror `y`
and a library pin at relative placement (0, 0, 0) the computation
terminates, but the rotation component of the returned absolute
location is 180, not the symbol rotation 0 (the mirror stage added 180
degrees and the loop then ran zero steps). -/
theorem c1_counterexample :
    (location ⟨0, 0, 0⟩ Mirror.y ⟨0, 0, 0⟩).map (fun p => p.1.rot) = some 180 ∧
      (180 : ℤ) ≠ (0 : ℤ) := by
  constructor
  · simp [location, locLoop, applyMirror, rotate90degrees, round4, pyRound, ratFloor]
  · decide

/-- Claim C1 (amended): for every symbol rotation r in
{0, 90, 180, 270}, every mirror state and every library pin placement
with rotation in [0, 360), the pin-location computation terminates
after at most 3 of the 90-degree rotation steps, and the rotation
component of the returned absolute location equals the mirrored
relative rotation plus r, mod 360 (not r itself). -/
theorem c1_terminates_rotation (px py : ℚ) (r : ℤ) (m : Mirror) (libAt : AtVal)
    (hr : r = 0 ∨ r = 90 ∨ r = 180 ∨ r = 270)
    (h0 : 0 ≤ libAt.rot) (h1 : libAt.rot < 360) :
    (location ⟨px, py, r⟩ m libAt).map (fun p => (p.2, p.1.rot)) =
      some ((r / 90).toNat, ((applyMirror m libAt).rot + r) % 360) ∧
    (r / 90).toNat ≤ 3 := by
  have hm := applyMirror_rot_range m libAt h0 h1
  have hle : (r / 90).toNat ≤ 3 := by
    rcases hr with h | h | h | h <;> subst h <;> decide
  have hrot : (rotate90degrees^[(r / 90).toNat] (applyMirror m libAt)).rot =
      ((applyMirror m libAt).rot + 90 * ((r / 90).toNat : ℤ)) % 360 :=
    iterate_rot90_rot _ hm.1 hm.2 _ hle
  have h90 : (90 : ℤ) * ((r / 90).toNat : ℤ) = r := by
    rcases hr with h | h | h | h <;> subst h <;> decide
  refine ⟨?_, hle⟩
  rw [location_rightAngle ⟨px, py, r⟩ m libAt hr]
  simp only [Option.map_some']
  rw [hrot, h90]

/-- Claim C1 witness at r = 90, mirror `x`, pin at (1, 2, 0). -/
theorem c1_terminates_rotation_witness :
    (location ⟨0, 0, 90⟩ Mirror.x ⟨1, 2, 0⟩).map (fun p => (p.2, p.1.rot)) =
      some (((90 : ℤ) / 90).toNat, ((applyMirror Mirror.x ⟨1, 2, 0⟩).rot + 90) % 360) ∧
    ((90 : ℤ) / 90).toNat ≤ 3 :=
  c1_terminates_rotation 0 0 90 Mirror.x ⟨1, 2, 0⟩ (Or.inr (Or.inl rfl))
    (by decide) (by decide)

/-- Claim C2: the pin location first applies the mirror rule — mirror
`y` negates the library-relative x and adds 180 degrees (mod 360)
exactly when the relative rotation is 0 mod 180; mirror `x` negates
the relative y and adds 180 degrees (mod 360) exactly when the
relative rotation is 0 mod 90; no mirror changes nothing — then
rotates the result to the symbol's rotation in quarter-turns and
returns x = symbol.x + rotated.x and y = symbol.y - rotated.y, each
rounded to 4 decimal places. -/
theorem c2_mirror_then_rotate (px py : ℚ) (r : ℤ) (m : Mirror) (libAt : AtVal)
    (hr : r = 0 ∨ r = 90 ∨ r = 180 ∨ r = 270) :
    location ⟨px, py, r⟩ m libAt =
      some (⟨round4 (px + (rotate90degrees^[(r / 90).toNat] (applyMirror m libAt)).x),
             round4 (py - (rotate90degrees^[(r / 90).toNat] (applyMirror m libAt)).y),
             (rotate90degrees^[(r / 90).toNat] (applyMirror m libAt)).rot⟩,
            (r / 90).toNat) ∧
    applyMirror Mirror.none libAt = libAt ∧
    applyMirror Mirror.y libAt =
      ⟨-libAt.x, libAt.y,
        if libAt.rot % 180 = 0 then (libAt.rot + 180) % 360 else libAt.rot⟩ ∧
    applyMirror Mirror.x libAt =
      ⟨libAt.x, -libAt.y,
        if libAt.rot % 90 = 0 then (libAt.rot + 180) % 360 else libAt.rot⟩ :=
  ⟨location_rightAngle ⟨px, py, r⟩ m libAt hr, rfl, rfl, rfl⟩

/-- Claim C2 witness at r = 270, mirror `y`, pin at (1, 2, 90). -/
theorem c2_mirror_then_rotate_witness :
    location ⟨0, 0, 270⟩ Mirror.y ⟨1, 2, 90⟩ =
      some (⟨round4 (0 + (rotate90degrees^[((270 : ℤ) / 90).toNat]
              (applyMirror Mirror.y ⟨1, 2, 90⟩)).x),
             round4 (0 - (rotate90degrees^[((270 : ℤ) / 90).toNat]
              (applyMirror Mirror.y ⟨1, 2, 90⟩)).y),
             (rotate90degrees^[((270 : ℤ) / 90).toNat]
              (applyMirror Mirror.y ⟨1, 2, 90⟩)).rot⟩,
            ((270 : ℤ) / 90).toNat) ∧
    applyMirror Mirror.none ⟨1, 2, 90⟩ = ⟨1, 2, 90⟩ ∧
    applyMirror Mirror.y ⟨1, 2, 90⟩ =
      ⟨-1, 2, if (90 : ℤ) % 180 = 0 then ((90 : ℤ) + 180) % 360 else 90⟩ ∧
    applyMirror Mirror.x ⟨1, 2, 90⟩ =
      ⟨1, -2, if (90 : ℤ) % 90 = 0 then ((90 : ℤ) + 180) % 360 else 90⟩ :=
  c2_mirror_then_rotate 0 0 270 Mirror.y ⟨1, 2, 90⟩ (Or.inr (Or.inr (Or.inr rfl)))

/-- Claim C4: when the schematic has a library-symbol table, a
`from_lib` call with an unknown id fails immediately with an error
that carries the list of known library ids (and, the result being an
error, no symbol is created or registered); a call with a known id
does not raise. -/
theorem c4_from_lib_lookup (sch : Schematic) (known : List String)
    (libId reference : String) (atX atY : ℚ) (unit : Nat)
    (inBom onBoard dnp : Bool)
    (h : sch.lib_symbols = some known) :
    (libId ∉ known →
      from_lib sch libId reference atX atY unit inBom onBoard dnp =
        Except.error ⟨libId, known⟩) ∧
    (libId ∈ known →
      from_lib sch libId reference atX atY unit inBom onBoard dnp =
        Except.ok (synthesizeSymbol libId reference atX atY unit inBom onBoard dnp,
          registerSymbol sch
            (synthesizeSymbol libId reference atX atY unit inBom onBoard dnp))) := by
  constructor <;> intro hmem <;> simp [from_lib, h, hmem]

/-- Claim C4 witness: a schematic knowing only "Device:R" rejects
lib id "Device:C" with the known-id list, and accepts "Device:R". -/
theorem c4_from_lib_lookup_witness :
    from_lib ⟨some ["Device:R"], true, []⟩ "Device:C" "U?" 0 0 1 true true false =
      Except.error ⟨"Device:C", ["Device:R"]⟩ ∧
    from_lib ⟨some ["Device:R"], true, []⟩ "Device:R" "U?" 0 0 1 true true false =
      Except.ok (synthesizeSymbol "Device:R" "U?" 0 0 1 true true false,
        registerSymbol ⟨some ["Device:R"], true, []⟩
          (synthesizeSymbol "Device:R" "U?" 0 0 1 true true false)) :=
  ⟨(c4_from_lib_lookup ⟨some ["Device:R"], true, []⟩ ["Device:R"]
      "Device:C" "U?" 0 0 1 true true false rfl).1 (by decide),
   (c4_from_lib_lookup ⟨some ["Device:R"], true, []⟩ ["Device:R"]
      "Device:R" "U?" 0 0 1 true true false rfl).2 (by decide)⟩

/-- Claim C10: when the schematic has no `lib_symbols` attribute, the
library-id validation is skipped entirely: `from_lib` raises for no
lib id, the symbol is synthesized and returned anyway, and it is
appended to the schematic's symbol collection exactly when the
schematic has a `symbol` attribute. -/
theorem c10_from_lib_no_table (sch : Schematic) (libId reference : String)
    (atX atY : ℚ) (unit : Nat) (inBom onBoard dnp : Bool)
    (h : sch.lib_symbols = none) :
    from_lib sch libId reference atX atY unit inBom onBoard dnp =
      Except.ok (synthesizeSymbol libId reference atX atY unit inBom onBoard dnp,
        registerSymbol sch
          (synthesizeSymbol libId reference atX atY unit inBom onBoard dnp)) ∧
    (registerSymbol sch
        (synthesizeSymbol libId reference atX atY unit inBom onBoard dnp)).symbols =
      (if sch.hasSymbolCollection then
        sch.symbols ++ [synthesizeSymbol libId reference atX atY unit inBom onBoard dnp]
      else sch.symbols) := by
  constructor
  · simp [from_lib, h]
  · rw [registerSymbol]
    split <;> rfl

/-- Claim C10 witness: an unknown id on a table-less schematic with a
symbol collection still synthesizes and registers. -/
theorem c10_from_lib_no_table_witness :
    from_lib ⟨none, true, []⟩ "No:Such" "U?" 0 0 1 true true false =
      Except.ok (synthesizeSymbol "No:Such" "U?" 0 0 1 true true false,
        registerSymbol ⟨none, true, []⟩
          (synthesizeSymbol "No:Such" "U?" 0 0 1 true true false)) ∧
    (registerSymbol ⟨none, true, []⟩
        (synthesizeSymbol "No:Such" "U?" 0 0 1 true true false)).symbols =
      (if (Schematic.mk none true []).hasSymbolCollection then
        ([] : List SymbolInst) ++ [synthesizeSymbol "No:Such" "U?" 0 0 1 true true false]
      else []) :=
  c10_from_lib_no_table ⟨none, true, []⟩ "No:Such" "U?" 0 0 1 true true false rfl

/-- Mutations of unit, lib id, or instance pins never touch the pin
cache field. -/
theorem applyMutations_cache (st : SymbolState) (ms : List SymbolMutation) :
    (applyMutations st ms).sympinsCache = st.sympinsCache := by
  induction ms generalizing st with
  | nil => rfl
  | cons mu ms ih =>
      rw [applyMutations, List.foldl_cons, ← applyMutations, ih]
      cases mu <;> rfl

/-- Claim C7: once `Symbol.pin` has been accessed, every later access
returns the identical cached pin collection, and no later change to
the symbol's unit, library id, or instance pin list causes a
rebuild. -/
theorem c7_pin_cache_stable (s : SymbolState) (ms : List SymbolMutation) :
    pinAccess (applyMutations (pinAccess s).2 ms) =
      ((pinAccess s).1, applyMutations (pinAccess s).2 ms) := by
  have h1 : (pinAccess s).2.sympinsCache = some (pinAccess s).1 := by
    cases h : s.sympinsCache <;> simp [pinAccess, h]
  have hc : (applyMutations (pinAccess s).2 ms).sympinsCache =
      some (pinAccess s).1 := by
    rw [applyMutations_cache, h1]
  rw [pinAccess, hc]

/-- Claim C8 counterexample: the pin-level `attached_symbols`
(symbol.py lines 597-607) neither excludes the queried symbol nor
de-duplicates.  Here the pin's parent symbol has id 0 and its pin lies
on wire 5, so the wire's recursive crawl reports symbols 0 (the parent
itself), 1 and 1 again; the pin-level query returns all three
verbatim: the parent is in the result and symbol 1 appears twice. -/
theorem c8_counterexample :
    pin_attached_symbols [5] (fun _ => [0, 1, 1]) = [0, 1, 1] ∧
    0 ∈ pin_attached_symbols [5] (fun _ => [0, 1, 1]) ∧
    ¬ (pin_attached_symbols [5] (fun _ => [0, 1, 1])).Nodup := by
  refine ⟨rfl, by decide, by decide⟩

/-- The de-duplicating inner loop of `Symbol.attached_symbols`
preserves "self absent and no duplicates". -/
theorem dedup_inner (selfId : ℕ) (l : List ℕ) (acc : List ℕ)
    (h1 : selfId ∉ acc) (h2 : acc.Nodup) :
    selfId ∉ l.foldl
        (fun a s => if s ≠ selfId ∧ s ∉ a then a ++ [s] else a) acc ∧
    (l.foldl (fun a s => if s ≠ selfId ∧ s ∉ a then a ++ [s] else a) acc).Nodup := by
  induction l generalizing acc with
  | nil => exact ⟨h1, h2⟩
  | cons s l ih =>
      rw [List.foldl_cons]
      by_cases hs : s ≠ selfId ∧ s ∉ acc
      · rw [if_pos hs]
        refine ih (acc ++ [s]) ?_ ?_
        · simp only [List.mem_append, List.mem_singleton]
          rintro (h | h)
          · exact h1 h
          · exact hs.1 h.symm
        · simp [List.nodup_append, h2, hs.2]
      · rw [if_neg hs]
        exact ih acc h1 h2

/-- Claim C8 (amended): the symbol-level `attached_symbols` (symbol.py
lines 446-457) never includes the queried symbol and returns every
symbol at most once; the pin-level `attached_symbols` (lines 597-607)
is the plain concatenation of the per-wire crawl results, with neither
self-exclusion nor de-duplication. -/
theorem c8_symbol_level_dedup (selfId : ℕ) (ws : List ℕ)
    (listConnectedSymbols : ℕ → List ℕ) :
    selfId ∉ symbol_attached_symbols selfId ws listConnectedSymbols ∧
    (symbol_attached_symbols selfId ws listConnectedSymbols).Nodup ∧
    pin_attached_symbols ws listConnectedSymbols =
      (ws.map listConnectedSymbols).flatten := by
  have main : ∀ (ws : List ℕ) (acc : List ℕ), selfId ∉ acc → acc.Nodup →
      selfId ∉ ws.foldl
          (fun acc w => (listConnectedSymbols w).foldl
            (fun acc2 s => if s ≠ selfId ∧ s ∉ acc2 then acc2 ++ [s] else acc2)
            acc) acc ∧
        (ws.foldl
          (fun acc w => (listConnectedSymbols w).foldl
            (fun acc2 s => if s ≠ selfId ∧ s ∉ acc2 then acc2 ++ [s] else acc2)
            acc) acc).Nodup := by
    intro ws
    induction ws with
    | nil => exact fun acc h1 h2 => ⟨h1, h2⟩
    | cons w ws ih =>
        intro acc h1 h2
        have step := dedup_inner selfId (listConnectedSymbols w) acc h1 h2
        exact ih _ step.1 step.2
  have hjoin : ∀ (ws : List ℕ) (acc : List ℕ),
      ws.foldl (fun acc w => acc ++ listConnectedSymbols w) acc =
        acc ++ (ws.map listConnectedSymbols).flatten := by
    intro ws
    induction ws with
    | nil => intro acc; simp
    | cons w ws ih => intro acc; simp [ih, List.append_assoc]
  have hm := main ws [] (by simp) List.nodup_nil
  exact ⟨hm.1, hm.2, by simpa using hjoin ws []⟩

/-- Claim C9: `property_changed` leaves the collection completely
unchanged for any property other than Reference; for Reference it
performs exactly `elementRename(old, new)`, leaving the multi-unit
record untouched, changing only the entry keyed by the old value and
keeping every other entry (sibling unit keys included) in place. -/
theorem c9_property_changed (c : SymbolCollection) (name toValue fromValue : String) :
    (name ≠ "Reference" → property_changed c name toValue fromValue = some c) ∧
    (name = "Reference" →
      property_changed c name toValue fromValue =
        (elementRename fromValue toValue c.entries).map
          (fun e => ⟨e, c.multiUnit⟩) ∧
      ∀ e, elementRename fromValue toValue c.entries = some e →
        e = c.entries.map
            (fun p => if p.1 = fromValue then (toValue, p.2) else p) ∧
        ∀ p ∈ c.entries, p.1 ≠ fromValue → p ∈ e) := by
  constructor
  · intro h
    simp [property_changed, h]
  · intro h
    subst h
    refine ⟨by simp [property_changed], ?_⟩
    intro e he
    rw [elementRename] at he
    split at he
    · exact absurd he (by simp)
    · split at he
      · exact absurd he (by simp)
      · refine ⟨(Option.some_injective _ he).symm, ?_⟩
        intro p hp hne
        rw [← (Option.some_injective _ he)]
        have : (if p.1 = fromValue then (toValue, p.2) else p) = p := if_neg hne
        exact this ▸ List.mem_map_of_mem _ hp

/-- Claim C9 witness: a Value change leaves a one-entry collection
untouched, and a Reference rename acts as `elementRename`. -/
theorem c9_property_changed_witness :
    property_changed ⟨[("R1", ⟨"R1", 1⟩)], []⟩ "Value" "10k" "1k" =
      some ⟨[("R1", ⟨"R1", 1⟩)], []⟩ ∧
    property_changed ⟨[("R1", ⟨"R1", 1⟩)], []⟩ "Reference" "R2" "R1" =
      (elementRename "R1" "R2" [("R1", ⟨"R1", 1⟩)]).map
        (fun e => ⟨e, ([] : List String)⟩) :=
  ⟨(c9_property_changed ⟨[("R1", ⟨"R1", 1⟩)], []⟩ "Value" "10k" "1k").1
      (by decide),
   ((c9_property_changed ⟨[("R1", ⟨"R1", 1⟩)], []⟩ "Reference" "R2" "R1").2
      rfl).1⟩


/-- Lookup in a cons cell of the association-list dict model. -/
theorem dictFind_cons {α : Type} (hd : String × α) (tl : List (String × α)) (n : String) :
    dictFind (hd :: tl) n = if hd.1 = n then some hd.2 else dictFind tl n := by
  by_cases h : hd.1 = n
  · rw [dictFind, List.find?_cons_of_pos _ (by simp [h]), if_pos h]
    rfl
  · rw [dictFind, List.find?_cons_of_neg _ (by simp [h]), if_neg h]
    rfl

/-- Overwriting the value at key `k` leaves every other lookup alone. -/
theorem dictFind_map_overwrite {α : Type} (tl : List (String × α)) (k : String)
    (v : α) (n : String) (hn : n ≠ k) :
    dictFind (tl.map (fun p => if p.1 = k then (k, v) else p)) n = dictFind tl n := by
  induction tl with
  | nil => rfl
  | cons hd tl ih =>
      rw [List.map_cons]
      by_cases h : hd.1 = k
      · rw [if_pos h, dictFind_cons, dictFind_cons, ih,
          if_neg (show ¬ ((k, v) : String × α).1 = n from fun hh => hn hh.symm),
          if_neg (fun hh : hd.1 = n => hn (hh.symm.trans h))]
      · rw [if_neg h, dictFind_cons, dictFind_cons, ih]

/-- Python dict lookup after an insert: the inserted key now maps to
the new value and every other key is unaffected. -/
theorem dictFind_insert {α : Type} (m : List (String × α)) (k : String)
    (v : α) (n : String) :
    dictFind (dictInsert m k v) n = if n = k then some v else dictFind m n := by
  induction m with
  | nil =>
      rw [dictInsert, if_neg (by simp), List.nil_append, dictFind_cons]
      by_cases h : n = k
      · rw [if_pos (show ((k, v) : String × α).1 = n from h.symm), if_pos h]
      · rw [if_neg (show ¬ ((k, v) : String × α).1 = n from fun hh => h hh.symm),
          if_neg h]
  | cons hd tl ih =>
      by_cases hhd : hd.1 = k
      · rw [dictInsert, if_pos (by simp [List.any_cons, hhd]), List.map_cons,
          if_pos hhd, dictFind_cons]
        by_cases hn : n = k
        · rw [if_pos (show ((k, v) : String × α).1 = n from hn.symm), if_pos hn]
        · rw [if_neg (show ¬ ((k, v) : String × α).1 = n from fun hh => hn hh.symm),
            if_neg hn, dictFind_map_overwrite tl k v n hn, dictFind_cons,
            if_neg (fun hh : hd.1 = n => hn (hh.symm.trans hhd))]
      · by_cases htl : tl.any (fun p => p.1 = k) = true
        · rw [dictInsert, if_pos (by simp only [List.any_cons, Bool.or_eq_true]; exact Or.inr htl),
            List.map_cons, if_neg hhd, dictFind_cons]
          have hrw : tl.map (fun p => if p.1 = k then (k, v) else p) = dictInsert tl k v := by
            rw [dictInsert, if_pos htl]
          rw [hrw, ih, dictFind_cons]
          by_cases hn : n = k
          · rw [if_neg (fun hh : hd.1 = n => hhd (hh.trans hn)), if_pos hn, if_pos hn]
          · rw [if_neg hn, if_neg hn]
        · have htl' : ∀ p ∈ tl, ¬ p.1 = k := by
            intro p hp hpk
            exact htl (List.any_eq_true.mpr ⟨p, hp, by simp [hpk]⟩)
          have hne : ¬ ((hd :: tl).any (fun p => p.1 = k) = true) := by
            simp only [List.any_cons, Bool.or_eq_true, decide_eq_true_eq]
            rintro (h | h)
            · exact hhd h
            · rcases List.any_eq_true.mp h with ⟨p, hp, hpk⟩
              exact htl' p hp (by simpa using hpk)
          rw [dictInsert, if_neg hne, dictFind, List.find?_append]
          by_cases hn : n = k
          · have h1 : List.find? (fun p => decide (p.1 = n)) (hd :: tl) = none := by
              rw [List.find?_eq_none]
              intro x hx
              simp only [decide_eq_true_eq]
              intro hxe
              rcases List.mem_cons.mp hx with h | h
              · exact hhd ((h ▸ hxe).trans hn)
              · exact htl' x h (hxe.trans hn)
            rw [h1, Option.none_or, List.find?_cons_of_pos _ (by simp [hn.symm]),
              if_pos hn]
            rfl
          · have h2 : List.find? (fun p => decide (p.1 = n)) [((k, v) : String × α)] = none := by
              rw [List.find?_eq_none]
              intro x hx
              simp only [List.mem_singleton] at hx
              subst hx
              simp only [decide_eq_true_eq]
              exact fun hh => hn hh.symm
            rw [h2, Option.or_none, if_neg hn, dictFind]


/-- A number is found in `lib_pins_map` exactly when some library pin
carries it. -/
theorem dictFind_libPinsMap_isSome (libPins : List LibPin) (n : String) :
    (dictFind (libPinsMap libPins) n).isSome = true ↔ ∃ p ∈ libPins, p.number = n := by
  have aux : ∀ (l : List LibPin) (acc : List (String × LibPin)),
      (dictFind (l.foldl (fun a p => dictInsert a p.number p) acc) n).isSome =
        ((dictFind acc n).isSome || l.any (fun p => p.number = n)) := by
    intro l
    induction l with
    | nil => intro acc; simp
    | cons p l ih =>
        intro acc
        rw [List.foldl_cons, ih, List.any_cons]
        by_cases h : n = p.number
        · simp [dictFind_insert, h]
        · have h2 : p.number ≠ n := fun hh => h hh.symm
          simp [dictFind_insert, h, h2]
  rw [libPinsMap, aux]
  simp [dictFind, List.any_eq_true]

/-- The pin build is the filterMap of the instance pin list through
the library map: matched pins are wrapped, unmatched ones dropped. -/
theorem buildPins_eq (instPins : List String) (libPins : List LibPin) :
    buildPins instPins libPins =
      instPins.filterMap (fun n =>
        (dictFind (libPinsMap libPins) n).map (fun lp => SymbolPin.mk n lp)) := by
  rw [buildPins]
  have aux : ∀ (l : List String) (acc : List SymbolPin),
      (l.foldl (fun acc n =>
        match dictFind (libPinsMap libPins) n with
        | some lp => acc ++ [⟨n, lp⟩]
        | none => acc) acc) =
      acc ++ l.filterMap (fun n =>
        (dictFind (libPinsMap libPins) n).map (fun lp => SymbolPin.mk n lp)) := by
    intro l
    induction l with
    | nil => intro acc; simp
    | cons n l ih =>
        intro acc
        rw [List.foldl_cons, List.filterMap_cons]
        cases h : dictFind (libPinsMap libPins) n with
        | none => simp only [h]; exact ih acc
        | some lp => simp only [h, Option.map_some', ih, List.append_assoc,
            List.singleton_append]
  simpa using aux instPins []

/-- Claim C5: building the pin collection never raises: it is a total
function of the instance pin list; it wraps, in instance order,
exactly one `SymbolPin` for each instance pin whose number appears
among the applicable library pin definitions; unmatched instance pins
are silently excluded, so the collection size is at most the instance
pin count. -/
theorem c5_pin_build (instPins : List String) (libPins : List LibPin) :
    buildPins instPins libPins =
      instPins.filterMap (fun n =>
        (dictFind (libPinsMap libPins) n).map (fun lp => SymbolPin.mk n lp)) ∧
    (buildPins instPins libPins).map (fun sp => sp.pinNumber) =
      instPins.filter (fun n => (dictFind (libPinsMap libPins) n).isSome) ∧
    (∀ n, (dictFind (libPinsMap libPins) n).isSome = true ↔
      ∃ p ∈ libPins, p.number = n) ∧
    (buildPins instPins libPins).length ≤ instPins.length := by
  refine ⟨buildPins_eq instPins libPins, ?_, fun n => dictFind_libPinsMap_isSome libPins n, ?_⟩
  · rw [buildPins_eq]
    induction instPins with
    | nil => rfl
    | cons n l ih =>
        rw [List.filterMap_cons, List.filter_cons]
        cases h : dictFind (libPinsMap libPins) n with
        | none => simp [h, ih]
        | some lp => simp [h, ih]
  · rw [buildPins_eq]
    exact List.length_filterMap_le _ _


/-- Inserting a key absent from the dict appends the entry. -/
theorem dictInsert_fresh {α : Type} (m : List (String × α)) (k : String) (v : α)
    (h : ∀ q ∈ m, q.1 ≠ k) : dictInsert m k v = m ++ [(k, v)] := by
  rw [dictInsert, if_neg]
  simp only [List.any_eq_true, decide_eq_true_eq, not_exists, not_and]
  intro q hq
  exact fun hh => h q hq hh

/-- With no duplicate keys, lookup finds the unique entry. -/
theorem dictFind_of_nodup {α : Type} (l : List (String × α))
    (hnd : (l.map Prod.fst).Nodup) (k : String) (v : α) (hmem : (k, v) ∈ l) :
    dictFind l k = some v := by
  induction l with
  | nil => cases hmem
  | cons hd tl ih =>
      rw [List.map_cons, List.nodup_cons] at hnd
      rcases List.mem_cons.mp hmem with h | h
      · subst h
        rw [dictFind_cons, if_pos rfl]
      · have hne : hd.1 ≠ k := by
          intro hh
          exact hnd.1 (hh ▸ List.mem_map_of_mem Prod.fst h)
        rw [dictFind_cons, if_neg hne]
        exact ih hnd.2 h

/-- The keys of the canonical `get_pin_locations` result are exactly
`pinKeys`, in order. -/
theorem map_fst_pinEntries (parAt : AtVal) (m : Mirror) (pins : List SymbolPin) :
    ((pins.map (pinEntries parAt m)).flatten).map Prod.fst = pinKeys pins := by
  induction pins with
  | nil => rfl
  | cons p pins ih =>
      rw [pinKeys, List.map_cons, List.flatten_cons, List.map_cons,
        List.flatten_cons, List.map_append, ih, pinKeys]
      congr 1
      rw [pinEntries]
      by_cases h : p.libPin.name ≠ "" ∧ p.libPin.name ≠ "~"
      · rw [if_pos h, if_pos h]
        rfl
      · rw [if_neg h, if_neg h]
        rfl

/-- Unfolding `pinKeys` over a cons cell. -/
theorem pinKeys_cons (p : SymbolPin) (pins : List SymbolPin) :
    pinKeys (p :: pins) =
      (p.libPin.number ::
        (if p.libPin.name ≠ "" ∧ p.libPin.name ≠ "~" then [p.libPin.name] else [])) ++
      pinKeys pins := by
  rw [pinKeys, List.map_cons, List.flatten_cons, pinKeys]

/-- One `get_pin_locations` iteration, at a right-angle parent
rotation: insert the number key, then the name key when the name is
non-empty and not generic. -/
theorem gplStep_eq (parAt : AtVal) (m : Mirror) (locs : List (String × (ℚ × ℚ)))
    (p : SymbolPin)
    (hr : parAt.rot = 0 ∨ parAt.rot = 90 ∨ parAt.rot = 180 ∨ parAt.rot = 270) :
    gplStep parAt m locs p =
      some (if p.libPin.name ≠ "" ∧ p.libPin.name ≠ "~" then
        dictInsert (dictInsert locs p.libPin.number (locXY parAt m p.libPin.atVal))
          p.libPin.name (locXY parAt m p.libPin.atVal)
      else dictInsert locs p.libPin.number (locXY parAt m p.libPin.atVal)) := by
  rw [gplStep, location_rightAngle parAt m p.libPin.atVal hr, Option.map_some']
  rfl

/-- The `get_pin_locations` fold, when every key it will produce is
fresh and the keys are mutually distinct, appends each pin's entries
in order. -/
theorem gpl_go (parAt : AtVal) (m : Mirror)
    (hr : parAt.rot = 0 ∨ parAt.rot = 90 ∨ parAt.rot = 180 ∨ parAt.rot = 270)
    (pins : List SymbolPin) :
    ∀ (acc : List (String × (ℚ × ℚ))),
      (∀ k ∈ pinKeys pins, ∀ q ∈ acc, q.1 ≠ k) →
      (pinKeys pins).Nodup →
      List.foldlM (gplStep parAt m) acc pins =
        some (acc ++ (pins.map (pinEntries parAt m)).flatten) := by
  induction pins with
  | nil => intro acc _ _; simp
  | cons p pins ih =>
      intro acc hdisj hnd
      rw [pinKeys_cons] at hdisj hnd
      rw [List.nodup_append] at hnd
      obtain ⟨hnd1, hnd2, hdisj2⟩ := hnd
      rw [List.foldlM_cons, gplStep_eq parAt m acc p hr]
      have hnum : dictInsert acc p.libPin.number (locXY parAt m p.libPin.atVal) =
          acc ++ [(p.libPin.number, locXY parAt m p.libPin.atVal)] :=
        dictInsert_fresh acc _ _ (fun q hq => hdisj p.libPin.number (by simp) q hq)
      have hstep : (if p.libPin.name ≠ "" ∧ p.libPin.name ≠ "~" then
          dictInsert (dictInsert acc p.libPin.number (locXY parAt m p.libPin.atVal))
            p.libPin.name (locXY parAt m p.libPin.atVal)
        else dictInsert acc p.libPin.number (locXY parAt m p.libPin.atVal)) =
          acc ++ pinEntries parAt m p := by
        by_cases hng : p.libPin.name ≠ "" ∧ p.libPin.name ≠ "~"
        · have hnn : p.libPin.number ≠ p.libPin.name := by
            have h2 := hnd1
            rw [if_pos hng] at h2
            have := (List.nodup_cons.mp h2).1
            simpa using this
          have hfr : ∀ q ∈ acc ++ [(p.libPin.number, locXY parAt m p.libPin.atVal)],
              q.1 ≠ p.libPin.name := by
            intro q hq
            rcases List.mem_append.mp hq with h | h
            · refine hdisj p.libPin.name ?_ q h
              rw [List.mem_append]
              left
              rw [if_pos hng]
              exact List.mem_cons_of_mem _ (List.mem_singleton.mpr rfl)
            · simp only [List.mem_singleton] at h
              subst h
              exact hnn
          rw [if_pos hng, hnum, dictInsert_fresh _ _ _ hfr, pinEntries, if_pos hng,
            List.append_assoc]
          rfl
        · rw [if_neg hng, hnum, pinEntries, if_neg hng]
      have hd' : ∀ k ∈ pinKeys pins, ∀ q ∈ acc ++ pinEntries parAt m p, q.1 ≠ k := by
        intro k hk q hq
        rcases List.mem_append.mp hq with h | h
        · exact hdisj k (List.mem_append_right _ hk) q h
        · rw [pinEntries] at h
          rcases List.mem_cons.mp h with h | h
          · subst h
            intro hh
            rw [← hh] at hk
            exact @hdisj2 p.libPin.number (List.mem_cons_self _ _) hk
          · by_cases hng : p.libPin.name ≠ "" ∧ p.libPin.name ≠ "~"
            · rw [if_pos hng] at h
              simp only [List.mem_singleton] at h
              subst h
              intro hh
              rw [← hh] at hk
              refine @hdisj2 p.libPin.name ?_ hk
              rw [if_pos hng]
              exact List.mem_cons_of_mem _ (List.mem_singleton.mpr rfl)
            · rw [if_neg hng] at h
              cases h
      rw [hstep]
      have hbind : (do
          let init ← some (acc ++ pinEntries parAt m p)
          List.foldlM (gplStep parAt m) init pins) =
          List.foldlM (gplStep parAt m) (acc ++ pinEntries parAt m p) pins := rfl
      rw [hbind, ih (acc ++ pinEntries parAt m p) hd' hnd2, List.map_cons,
        List.flatten_cons, ← List.append_assoc]

/-- Entry count of the canonical result: one per pin plus one per
non-generic name. -/
theorem length_pinEntries_flatten (parAt : AtVal) (m : Mirror)
    (pins : List SymbolPin) :
    ((pins.map (pinEntries parAt m)).flatten).length =
      pins.length +
        (pins.filter (fun p => p.libPin.name ≠ "" ∧ p.libPin.name ≠ "~")).length := by
  induction pins with
  | nil => rfl
  | cons p pins ih =>
      rw [List.map_cons, List.flatten_cons, List.length_append, ih, List.filter_cons]
      by_cases hng : p.libPin.name ≠ "" ∧ p.libPin.name ≠ "~"
      · rw [pinEntries, if_pos hng]
        simp only [hng, decide_eq_true_eq, if_pos, List.length_cons,
          List.length_singleton]
        simp [hng]
        omega
      · rw [pinEntries, if_neg hng]
        simp [hng]
        omega

/-- Claim C6 (amended): when the symbol rotation is a right angle and
the produced keys (pin numbers plus non-generic names) are pairwise
distinct, `get_pin_locations` returns a dictionary with, for every
pin, an entry keyed by the pin's number mapped to its absolute (x, y),
plus an entry keyed by the pin's name with the same coordinate exactly
when the name is non-empty and not `'~'`; the entry count is the pin
count plus the count of non-empty non-generic names (so two named pins
and two generic pins among four yield 6 entries). -/
theorem c6_pin_locations (parAt : AtVal) (m : Mirror) (pins : List SymbolPin)
    (hr : parAt.rot = 0 ∨ parAt.rot = 90 ∨ parAt.rot = 180 ∨ parAt.rot = 270)
    (hnd : (pinKeys pins).Nodup) :
    get_pin_locations parAt m pins =
      some ((pins.map (pinEntries parAt m)).flatten) ∧
    ((pins.map (pinEntries parAt m)).flatten).length =
      pins.length +
        (pins.filter (fun p => p.libPin.name ≠ "" ∧ p.libPin.name ≠ "~")).length ∧
    ∀ p ∈ pins,
      dictFind ((pins.map (pinEntries parAt m)).flatten) p.libPin.number =
        some (locXY parAt m p.libPin.atVal) ∧
      (p.libPin.name ≠ "" ∧ p.libPin.name ≠ "~" →
        dictFind ((pins.map (pinEntries parAt m)).flatten) p.libPin.name =
          some (locXY parAt m p.libPin.atVal)) := by
  refine ⟨?_, length_pinEntries_flatten parAt m pins, ?_⟩
  · rw [get_pin_locations]
    simpa using gpl_go parAt m hr pins [] (by simp) hnd
  · intro p hp
    have hkeysnd : (((pins.map (pinEntries parAt m)).flatten).map Prod.fst).Nodup := by
      rw [map_fst_pinEntries]
      exact hnd
    constructor
    · refine dictFind_of_nodup _ hkeysnd _ _ ?_
      rw [List.mem_flatten]
      exact ⟨pinEntries parAt m p, List.mem_map_of_mem _ hp,
        by rw [pinEntries]; exact List.mem_cons_self _ _⟩
    · intro hng
      refine dictFind_of_nodup _ hkeysnd _ _ ?_
      rw [List.mem_flatten]
      refine ⟨pinEntries parAt m p, List.mem_map_of_mem _ hp, ?_⟩
      rw [pinEntries]
      refine List.mem_cons_of_mem _ ?_
      rw [if_pos hng]
      exact List.mem_singleton.mpr rfl

/-- Claim C6 counterexample: a pin whose library name is the empty
string (which differs from `'~'`) gets no name-keyed entry: the code
tests `pin.name and pin.name != '~'`, so a falsy empty name is
excluded even though it is not `'~'`, and the single-pin dictionary
has 1 entry, not the 2 the claim demands. -/
theorem c6_counterexample :
    get_pin_locations ⟨0, 0, 0⟩ Mirror.none [⟨"1", ⟨"1", "", ⟨0, 0, 0⟩⟩⟩] =
      some [(("1" : String), ((0 : ℚ), (0 : ℚ)))] ∧
    dictFind [(("1" : String), ((0 : ℚ), (0 : ℚ)))] "" = none ∧
    ("" : String) ≠ "~" := by
  refine ⟨?_, rfl, by decide⟩
  simp [get_pin_locations, gplStep, location, locLoop, applyMirror, dictInsert,
    round4, pyRound, ratFloor]
  norm_num

/-- Claim C6 witness: named pin "VIN"(1) and generic pin 2 give a
3-entry dictionary with the stated lookups. -/
theorem c6_pin_locations_witness :
    get_pin_locations ⟨0, 0, 0⟩ Mirror.none
        [⟨"1", ⟨"1", "VIN", ⟨0, 1, 0⟩⟩⟩, ⟨"2", ⟨"2", "~", ⟨0, 2, 0⟩⟩⟩] =
      some (((([⟨"1", ⟨"1", "VIN", ⟨0, 1, 0⟩⟩⟩, ⟨"2", ⟨"2", "~", ⟨0, 2, 0⟩⟩⟩] :
        List SymbolPin).map (pinEntries ⟨0, 0, 0⟩ Mirror.none)).flatten)) ∧
    (((([⟨"1", ⟨"1", "VIN", ⟨0, 1, 0⟩⟩⟩, ⟨"2", ⟨"2", "~", ⟨0, 2, 0⟩⟩⟩] :
        List SymbolPin).map (pinEntries ⟨0, 0, 0⟩ Mirror.none)).flatten)).length =
      ([⟨"1", ⟨"1", "VIN", ⟨0, 1, 0⟩⟩⟩, ⟨"2", ⟨"2", "~", ⟨0, 2, 0⟩⟩⟩] :
        List SymbolPin).length +
        (([⟨"1", ⟨"1", "VIN", ⟨0, 1, 0⟩⟩⟩, ⟨"2", ⟨"2", "~", ⟨0, 2, 0⟩⟩⟩] :
          List SymbolPin).filter
            (fun p => p.libPin.name ≠ "" ∧ p.libPin.name ≠ "~")).length ∧
    ∀ p ∈ ([⟨"1", ⟨"1", "VIN", ⟨0, 1, 0⟩⟩⟩, ⟨"2", ⟨"2", "~", ⟨0, 2, 0⟩⟩⟩] :
        List SymbolPin),
      dictFind ((([⟨"1", ⟨"1", "VIN", ⟨0, 1, 0⟩⟩⟩, ⟨"2", ⟨"2", "~", ⟨0, 2, 0⟩⟩⟩] :
          List SymbolPin).map (pinEntries ⟨0, 0, 0⟩ Mirror.none)).flatten)
          p.libPin.number =
        some (locXY ⟨0, 0, 0⟩ Mirror.none p.libPin.atVal) ∧
      (p.libPin.name ≠ "" ∧ p.libPin.name ≠ "~" →
        dictFind ((([⟨"1", ⟨"1", "VIN", ⟨0, 1, 0⟩⟩⟩, ⟨"2", ⟨"2", "~", ⟨0, 2, 0⟩⟩⟩] :
            List SymbolPin).map (pinEntries ⟨0, 0, 0⟩ Mirror.none)).flatten)
            p.libPin.name =
          some (locXY ⟨0, 0, 0⟩ Mirror.none p.libPin.atVal)) :=
  c6_pin_locations ⟨0, 0, 0⟩ Mirror.none
    [⟨"1", ⟨"1", "VIN", ⟨0, 1, 0⟩⟩⟩, ⟨"2", ⟨"2", "~", ⟨0, 2, 0⟩⟩⟩]
    (Or.inl rfl) (by decide)


/-- The `_A` suffixing is injective on references. -/
theorem suffixA_inj (a b : String) (h : suffixA a = suffixA b) : a = b := by
  rw [suffixA, suffixA] at h
  have h2 := congrArg String.data h
  simp only [String.data_append] at h2
  have h3 : a.data ++ ['_'] = b.data ++ ['_'] := List.append_cancel_right h2
  exact String.ext (List.append_cancel_right h3)

/-- A reference is recorded in `_multi_unit_elements` exactly when
some element of the batch carries it with unit > 1. -/
theorem mem_multiUnitRefs (els : List SymEl) (r : String) :
    r ∈ multiUnitRefs els ↔ ∃ el ∈ els, el.unit > 1 ∧ el.ref = r := by
  have aux : ∀ (l : List SymEl) (acc : List String),
      r ∈ l.foldl (fun acc el =>
        if el.unit > 1 ∧ el.ref ∉ acc then acc ++ [el.ref] else acc) acc ↔
      r ∈ acc ∨ ∃ el ∈ l, el.unit > 1 ∧ el.ref = r := by
    intro l
    induction l with
    | nil => intro acc; simp
    | cons el l ih =>
        intro acc
        rw [List.foldl_cons]
        by_cases h : el.unit > 1 ∧ el.ref ∉ acc
        · rw [if_pos h, ih]
          simp only [List.mem_append, List.mem_singleton, List.mem_cons,
            List.not_mem_nil, or_false]
          constructor
          · rintro ((hacc | hrefl) | ⟨e, he, hu, hr⟩)
            · exact Or.inl hacc
            · exact Or.inr ⟨el, Or.inl rfl, h.1, hrefl.symm⟩
            · exact Or.inr ⟨e, Or.inr he, hu, hr⟩
          · rintro (hacc | ⟨e, (rfl | he), hu, hr⟩)
            · exact Or.inl (Or.inl hacc)
            · exact Or.inl (Or.inr hr.symm)
            · exact Or.inr ⟨e, he, hu, hr⟩
        · rw [if_neg h, ih]
          push_neg at h
          constructor
          · rintro (hacc | ⟨e, he, hu, hr⟩)
            · exact Or.inl hacc
            · exact Or.inr ⟨e, List.mem_cons_of_mem _ he, hu, hr⟩
          · rintro (hacc | ⟨e, he, hu, hr⟩)
            · exact Or.inl hacc
            · rcases List.mem_cons.mp he with rfl | he2
              · exact Or.inl (hr ▸ h hu)
              · exact Or.inr ⟨e, he2, hu, hr⟩
  rw [multiUnitRefs, aux]
  simp

/-- Python dict keys are unique: so is the model's record. -/
theorem multiUnitRefs_nodup (els : List SymEl) : (multiUnitRefs els).Nodup := by
  have aux : ∀ (l : List SymEl) (acc : List String), acc.Nodup →
      (l.foldl (fun acc el =>
        if el.unit > 1 ∧ el.ref ∉ acc then acc ++ [el.ref] else acc) acc).Nodup := by
    intro l
    induction l with
    | nil => exact fun acc h => h
    | cons el l ih =>
        intro acc h
        rw [List.foldl_cons]
        by_cases hc : el.unit > 1 ∧ el.ref ∉ acc
        · rw [if_pos hc]
          exact ih _ (by simp [List.nodup_append, h, hc.2])
        · rw [if_neg hc]
          exact ih _ h
  exact aux els [] List.nodup_nil

/-- When initial keying succeeds, the entries carry the batch elements
in order, each under the key its `keyFor` computes. -/
theorem initialEntries_char (els : List SymEl) (init : List (String × SymEl))
    (h : initialEntries els = some init) :
    init.map Prod.snd = els ∧ ∀ p ∈ init, keyFor p.2 = some p.1 := by
  induction els generalizing init with
  | nil =>
      rw [initialEntries] at h
      simp only [List.mapM_nil, Option.pure_def, Option.some_inj] at h
      subst h
      exact ⟨rfl, by simp⟩
  | cons el els ih =>
      rw [initialEntries, List.mapM_cons] at h
      cases hk : keyFor el with
      | none => rw [hk] at h; simp at h
      | some k =>
          rw [hk] at h
          cases hm : els.mapM (fun el => (keyFor el).map (fun k => (k, el))) with
          | none => rw [hm] at h; simp at h
          | some init' =>
              rw [hm] at h
              have h' : (k, el) :: init' = init := by simpa using h
              subst h'
              obtain ⟨ih1, ih2⟩ := ih init' (by rw [initialEntries]; exact hm)
              refine ⟨by simp [ih1], ?_⟩
              intro p hp
              rcases List.mem_cons.mp hp with rfl | hp2
              · exact hk
              · exact ih2 p hp2

/-- The constructor's rename pass: when the initial keys are distinct,
every multi-unit reference is present as a key, and no `_A`-suffixed
target key is taken, the fold of `elementRename` succeeds and
re-keys exactly the entries whose key is a multi-unit reference. -/
theorem rename_fold (rs : List String) :
    ∀ (entries : List (String × SymEl)),
      (entries.map Prod.fst).Nodup →
      rs.Nodup →
      (∀ r ∈ rs, r ∈ entries.map Prod.fst) →
      (∀ r ∈ rs, suffixA r ∉ entries.map Prod.fst) →
      rs.foldlM (fun es r => elementRename r (suffixA r) es) entries =
        some (entries.map (fun p => if p.1 ∈ rs then (suffixA p.1, p.2) else p)) := by
  induction rs with
  | nil =>
      intro entries _ _ _ _
      simp
  | cons r rs ih =>
      intro entries hnd hrsnd hpres hfresh
      rw [List.nodup_cons] at hrsnd
      have hold : ¬ (entries.all (fun p => p.1 ≠ r) = true) := by
        have hr := hpres r (List.mem_cons_self _ _)
        rcases List.mem_map.mp hr with ⟨p, hp, hpk⟩
        simp only [List.all_eq_true, decide_eq_true_eq]
        push_neg
        exact ⟨p, hp, by simpa using hpk⟩
      have hnew : ¬ (entries.any (fun p => p.1 = suffixA r) = true) := by
        have hf := hfresh r (List.mem_cons_self _ _)
        simp only [List.any_eq_true, decide_eq_true_eq]
        rintro ⟨p, hp, hpk⟩
        exact hf (hpk ▸ List.mem_map_of_mem Prod.fst hp)
      rw [List.foldlM_cons, elementRename, if_neg hold, if_neg hnew]
      have hbind : (do
          let es ← some (entries.map
            (fun p => if p.1 = r then (suffixA r, p.2) else p))
          rs.foldlM (fun es r => elementRename r (suffixA r) es) es) =
          rs.foldlM (fun es r => elementRename r (suffixA r) es)
            (entries.map (fun p => if p.1 = r then (suffixA r, p.2) else p)) := rfl
      rw [hbind]
      have hkeys : (entries.map (fun p => if p.1 = r then (suffixA r, p.2) else p)).map
          Prod.fst =
          (entries.map Prod.fst).map (fun k => if k = r then suffixA r else k) := by
        rw [List.map_map, List.map_map]
        refine List.map_congr_left fun p hp => ?_
        simp only [Function.comp_apply]
        by_cases h : p.1 = r
        · rw [if_pos h, if_pos h]
        · rw [if_neg h, if_neg h]
      have hnd1 : ((entries.map (fun p => if p.1 = r then (suffixA r, p.2) else p)).map
          Prod.fst).Nodup := by
        rw [hkeys]
        refine List.Nodup.map_on ?_ hnd
        intro k1 hk1 k2 hk2 heq
        by_cases h1 : k1 = r <;> by_cases h2 : k2 = r
        · rw [h1, h2]
        · rw [if_pos h1, if_neg h2] at heq
          exact absurd (heq ▸ hk2) (hfresh r (List.mem_cons_self _ _))
        · rw [if_neg h1, if_pos h2] at heq
          exact absurd (heq.symm ▸ hk1) (hfresh r (List.mem_cons_self _ _))
        · rw [if_neg h1, if_neg h2] at heq
          exact heq
      have hpres1 : ∀ r2 ∈ rs,
          r2 ∈ (entries.map (fun p => if p.1 = r then (suffixA r, p.2) else p)).map
            Prod.fst := by
        intro r2 hr2
        rw [hkeys]
        have hne : r2 ≠ r := fun hh => hrsnd.1 (hh ▸ hr2)
        exact List.mem_map.mpr ⟨r2, hpres r2 (List.mem_cons_of_mem _ hr2), if_neg hne⟩
      have hfresh1 : ∀ r2 ∈ rs,
          suffixA r2 ∉ (entries.map (fun p => if p.1 = r then (suffixA r, p.2) else p)).map
            Prod.fst := by
        intro r2 hr2 hmem
        rw [hkeys] at hmem
        rcases List.mem_map.mp hmem with ⟨k, hk, hkeq⟩
        by_cases h : k = r
        · rw [if_pos h] at hkeq
          exact hrsnd.1 (suffixA_inj r r2 hkeq ▸ hr2)
        · rw [if_neg h] at hkeq
          exact hfresh r2 (List.mem_cons_of_mem _ hr2) (hkeq ▸ hk)
      rw [ih _ hnd1 hrsnd.2 hpres1 hfresh1, List.map_map]
      congr 1
      refine List.map_congr_left fun p hp => ?_
      simp only [Function.comp_apply]
      by_cases h1 : p.1 = r
      · rw [if_pos h1]
        have hnotin : suffixA r ∉ rs := by
          intro hin
          exact hfresh r (List.mem_cons_self _ _) (hpres (suffixA r)
            (List.mem_cons_of_mem _ hin))
        rw [if_neg (by simpa using hnotin), if_pos (by rw [h1]; exact List.mem_cons_self _ _), h1]
      · rw [if_neg h1]
        by_cases h2 : p.1 ∈ rs
        · rw [if_pos h2, if_pos (List.mem_cons_of_mem _ h2)]
        · rw [if_neg h2, if_neg (by simp [h1, h2])]

/-- Claim C3: for a batch whose initial keying succeeds with distinct
keys, where every multi-unit reference has a unit-1 sibling and no
`_A`-suffixed target key is already taken, construction succeeds;
every element with unit >= 2 is keyed `Reference ++ "_" ++ unit
letter`; the unit-1 element of each multi-unit reference is re-keyed
to `Reference ++ "_A"`; the plain reference key is absent from the
collection; and `multiple_units_for_reference` returns true exactly
for the references carried by some element with unit > 1. -/
theorem c3_construction_keys (els : List SymEl) (init : List (String × SymEl))
    (hinit : initialEntries els = some init)
    (hnd : (init.map Prod.fst).Nodup)
    (hsib : ∀ r ∈ multiUnitRefs els, ∃ el ∈ els, el.ref = r ∧ el.unit = 1)
    (hfresh : ∀ r ∈ multiUnitRefs els, suffixA r ∉ init.map Prod.fst) :
    symbolCollectionInit els =
      some ⟨finalKeyedEntries (multiUnitRefs els) init, multiUnitRefs els⟩ ∧
    (∀ p ∈ init, 2 ≤ p.2.unit →
      p.1 = p.2.ref ++ "_" ++ UnitToName.getD p.2.unit "" ∧
      p ∈ finalKeyedEntries (multiUnitRefs els) init) ∧
    (∀ el ∈ els, el.unit = 1 → el.ref ∈ multiUnitRefs els →
      (suffixA el.ref, el) ∈ finalKeyedEntries (multiUnitRefs els) init) ∧
    (∀ r ∈ multiUnitRefs els,
      r ∉ (finalKeyedEntries (multiUnitRefs els) init).map Prod.fst) ∧
    (∀ r, multiple_units_for_reference
        ⟨finalKeyedEntries (multiUnitRefs els) init, multiUnitRefs els⟩ r = true ↔
      ∃ el ∈ els, el.unit > 1 ∧ el.ref = r) := by
  obtain ⟨hsnd, hkey⟩ := initialEntries_char els init hinit
  have hentry1 : ∀ el ∈ els, el.unit = 1 → (el.ref, el) ∈ init := by
    intro el hel hu
    rw [← hsnd] at hel
    rcases List.mem_map.mp hel with ⟨p, hp, hpe⟩
    obtain ⟨p1, p2⟩ := p
    simp only at hpe
    subst hpe
    have hk := hkey _ hp
    simp only at hk
    rw [keyFor, if_pos hu] at hk
    have : p2.ref = p1 := Option.some_injective _ hk
    rw [← this] at hp
    exact hp
  have hpres : ∀ r ∈ multiUnitRefs els, r ∈ init.map Prod.fst := by
    intro r hr
    obtain ⟨el, hel, hrref, hu⟩ := hsib r hr
    exact hrref ▸ List.mem_map_of_mem Prod.fst (hentry1 el hel hu)
  have hmain := rename_fold (multiUnitRefs els) init hnd (multiUnitRefs_nodup els)
    hpres hfresh
  have hcoll : symbolCollectionInit els =
      some ⟨finalKeyedEntries (multiUnitRefs els) init, multiUnitRefs els⟩ := by
    show (initialEntries els).bind (fun init2 =>
      ((multiUnitRefs els).foldlM (fun es r => elementRename r (suffixA r) es)
          init2).bind
        (fun final => some (SymbolCollection.mk final (multiUnitRefs els)))) =
      some ⟨finalKeyedEntries (multiUnitRefs els) init, multiUnitRefs els⟩
    rw [hinit, Option.some_bind, hmain, Option.some_bind]
    rfl
  have hinj := List.inj_on_of_nodup_map hnd
  have hnotmulti : ∀ p ∈ init, 2 ≤ p.2.unit → p.1 ∉ multiUnitRefs els := by
    intro p hp hu hmem
    obtain ⟨el, hel, hrref, hu1⟩ := hsib p.1 hmem
    have hq := hentry1 el hel hu1
    have hpq : p = (el.ref, el) := hinj hp hq (by rw [hrref])
    rw [hpq] at hu
    simp only at hu
    omega
  refine ⟨hcoll, ?_, ?_, ?_, ?_⟩
  · intro p hp hu
    have hk := hkey p hp
    have hu1 : ¬ p.2.unit = 1 := by omega
    rw [keyFor, if_neg hu1] at hk
    cases hget : UnitToName.get? p.2.unit with
    | none => rw [hget] at hk; simp at hk
    | some letterName =>
        rw [hget] at hk
        simp only [Option.map_some', Option.some_inj] at hk
        have hgd : UnitToName.getD p.2.unit "" = letterName := by
          rw [List.getD_eq_getElem?_getD, ← List.get?_eq_getElem?, hget]
          rfl
        constructor
        · rw [hgd]
          exact hk.symm
        · have hnm := hnotmulti p hp hu
          rw [finalKeyedEntries]
          have hgp : (if p.1 ∈ multiUnitRefs els then (suffixA p.1, p.2) else p) = p :=
            if_neg hnm
          exact hgp ▸ List.mem_map_of_mem _ hp
  · intro el hel hu hm
    have hq := hentry1 el hel hu
    rw [finalKeyedEntries]
    refine List.mem_map.mpr ⟨(el.ref, el), hq, ?_⟩
    rw [if_pos hm]
  · intro r hr hmem
    rw [finalKeyedEntries, List.map_map] at hmem
    rcases List.mem_map.mp hmem with ⟨p, hp, hpk⟩
    simp only [Function.comp_apply] at hpk
    by_cases h : p.1 ∈ multiUnitRefs els
    · rw [if_pos h] at hpk
      simp only at hpk
      exact hfresh p.1 h (hpk.symm ▸ hpres r hr)
    · rw [if_neg h] at hpk
      exact h (hpk.symm ▸ hr)
  · intro r
    have h1 : (multiUnitRefs els).contains r = true ↔ r ∈ multiUnitRefs els := by
      simp
    show (multiUnitRefs els).contains r = true ↔ _
    rw [h1, mem_multiUnitRefs]

/-- Claim C3 witness: units 1 and 2 of base reference "U1" come out
as "U1_A" and "U1_B", with plain "U1" absent. -/
theorem c3_construction_keys_witness :
    symbolCollectionInit [⟨"U1", 1⟩, ⟨"U1", 2⟩] =
      some ⟨finalKeyedEntries (multiUnitRefs [⟨"U1", 1⟩, ⟨"U1", 2⟩])
              [("U1", ⟨"U1", 1⟩), ("U1_B", ⟨"U1", 2⟩)],
            multiUnitRefs [⟨"U1", 1⟩, ⟨"U1", 2⟩]⟩ ∧
    (∀ p ∈ ([("U1", ⟨"U1", 1⟩), ("U1_B", ⟨"U1", 2⟩)] : List (String × SymEl)),
      2 ≤ p.2.unit →
      p.1 = p.2.ref ++ "_" ++ UnitToName.getD p.2.unit "" ∧
      p ∈ finalKeyedEntries (multiUnitRefs [⟨"U1", 1⟩, ⟨"U1", 2⟩])
            [("U1", ⟨"U1", 1⟩), ("U1_B", ⟨"U1", 2⟩)]) ∧
    (∀ el ∈ ([⟨"U1", 1⟩, ⟨"U1", 2⟩] : List SymEl), el.unit = 1 →
      el.ref ∈ multiUnitRefs [⟨"U1", 1⟩, ⟨"U1", 2⟩] →
      (suffixA el.ref, el) ∈ finalKeyedEntries (multiUnitRefs [⟨"U1", 1⟩, ⟨"U1", 2⟩])
            [("U1", ⟨"U1", 1⟩), ("U1_B", ⟨"U1", 2⟩)]) ∧
    (∀ r ∈ multiUnitRefs [⟨"U1", 1⟩, ⟨"U1", 2⟩],
      r ∉ (finalKeyedEntries (multiUnitRefs [⟨"U1", 1⟩, ⟨"U1", 2⟩])
            [("U1", ⟨"U1", 1⟩), ("U1_B", ⟨"U1", 2⟩)]).map Prod.fst) ∧
    (∀ r, multiple_units_for_reference
        ⟨finalKeyedEntries (multiUnitRefs [⟨"U1", 1⟩, ⟨"U1", 2⟩])
            [("U1", ⟨"U1", 1⟩), ("U1_B", ⟨"U1", 2⟩)],
          multiUnitRefs [⟨"U1", 1⟩, ⟨"U1", 2⟩]⟩ r = true ↔
      ∃ el ∈ ([⟨"U1", 1⟩, ⟨"U1", 2⟩] : List SymEl), el.unit > 1 ∧ el.ref = r) :=
  c3_construction_keys [⟨"U1", 1⟩, ⟨"U1", 2⟩]
    [("U1", ⟨"U1", 1⟩), ("U1_B", ⟨"U1", 2⟩)]
    (by decide) (by decide) (by decide) (by decide)

end KicadSkip
